import Mathlib

/-!
Shallow embedding of the trade-reconstruction core of `app/utils/profit_calculator.py`
(class `ProfitCalculator`): operation classification, starting-position estimation,
the continuous zero-crossing session builder, pool-level fee/margin attribution and
the consistency validator.  Timestamps are modelled as integers (microseconds),
monetary values as exact rationals, Python dicts as insertion-ordered association
lists.
-/

namespace TinkTr

/-- The closed set of operation kinds used by the calculator
(`OperationType` values from the broker API; every other value is `other`). -/
inductive OperationType where
  | buy
  | sell
  | brokerFee
  | writingOffVarmargin
  | accruingVarmargin
  | other
deriving DecidableEq

/-- An input operation record (the fields of the broker operation objects that
`ProfitCalculator` reads). `date` is microseconds since an epoch; `price` and
`payment` are the exact decimal values of the corresponding quotation objects. -/
structure Operation where
  id : String
  operation_type : OperationType
  date : ℤ
  figi : String
  quantity : ℤ
  price : ℚ
  payment : ℚ
deriving DecidableEq

/-- Modelled from the spec: `app.utils.quotation.quotation_to_float` is not under
`src/`; the spec requires exact decimal amounts, so quotation values are embedded
directly as rationals and the conversion is the identity. -/
def quotation_to_float (q : ℚ) : ℚ := q

/-- Python dict lookup on an insertion-ordered association list. -/
def dictGet (d : List (String × ℤ)) (k : String) : Option ℤ :=
  (d.find? (fun p => p.1 == k)).map Prod.snd

/-- Python `d.get(k, v)`. -/
def dictGetD (d : List (String × ℤ)) (k : String) (v : ℤ) : ℤ :=
  (dictGet d k).getD v

/-- Python `d[k] = v`: overwrite in place if the key exists, else append. -/
def dictSet (d : List (String × ℤ)) (k : String) (v : ℤ) : List (String × ℤ) :=
  if d.any (fun p => p.1 == k) then
    d.map (fun p => if p.1 == k then (k, v) else p)
  else
    d ++ [(k, v)]

/-- Whether the operation is a trading (Buy/Sell) operation. -/
def isTradingOp (op : Operation) : Bool :=
  op.operation_type == OperationType.buy || op.operation_type == OperationType.sell

/-- Whether the operation is a variation-margin operation. -/
def isMarginOp (op : Operation) : Bool :=
  op.operation_type == OperationType.writingOffVarmargin ||
    op.operation_type == OperationType.accruingVarmargin

/-- Python `sorted(operations, key=lambda x: x.date)` (stable, ascending). -/
def sortByDateAsc (ops : List Operation) : List Operation :=
  List.insertionSort (fun a b => a.date ≤ b.date) ops

/-- Python `sorted(operations, key=lambda x: x.date, reverse=True)` (stable, descending). -/
def sortByDateDesc (ops : List Operation) : List Operation :=
  List.insertionSort (fun a b => b.date ≤ a.date) ops

/-- One reverse-replay step of `calculate_starting_positions_from_current`:
a Buy is undone by subtracting its quantity, a Sell by adding it back. -/
def reverseStep (d : List (String × ℤ)) (op : Operation) : List (String × ℤ) :=
  if isTradingOp op then
    let cur := dictGetD d op.figi 0
    if op.operation_type == OperationType.buy then
      dictSet d op.figi (cur - op.quantity)
    else
      dictSet d op.figi (cur + op.quantity)
  else d

/-- `ProfitCalculator.calculate_starting_positions_from_current`. -/
def calculate_starting_positions_from_current
    (operations : List Operation) (current_positions : List (String × ℤ)) :
    List (String × ℤ) :=
  if operations = [] then current_positions
  else (sortByDateDesc operations).foldl reverseStep current_positions

/-- First-appearance order of FIGIs in a list of operations
(`defaultdict` grouping preserves insertion order of keys). -/
def figiOrder (ops : List Operation) : List String :=
  ops.foldl (fun acc op => if acc.contains op.figi then acc else acc ++ [op.figi]) []

/-- The entry `auto_detect_starting_positions` records for one FIGI: sort that
FIGI's trading operations by date and look at the first one. -/
def detectEntry (tradeOps : List Operation) (figi : String) : List (String × ℤ) :=
  match sortByDateAsc (tradeOps.filter (fun o => o.figi == figi)) with
  | [] => []
  | first :: _ =>
      if first.operation_type == OperationType.buy then [(figi, -first.quantity)]
      else [(figi, first.quantity)]

/-- `ProfitCalculator.auto_detect_starting_positions`. -/
def auto_detect_starting_positions (operations : List Operation) : List (String × ℤ) :=
  if operations = [] then []
  else
    let tradeOps := operations.filter isTradingOp
    (figiOrder tradeOps).foldl (fun acc figi => acc ++ detectEntry tradeOps figi) []

/-- The dict the session builder pushes into the running buffer for one
operation (`op_dict` in `_process_figi_continuous`). -/
structure OpDict where
  id : String
  type : OperationType
  date : ℤ
  quantity : ℤ
  price : ℚ
  payment : ℚ
  virtual : Bool
deriving DecidableEq

/-- Conversion of a real operation into its buffer dict (`virtual = False`). -/
def opToDict (op : Operation) : OpDict :=
  { id := op.id
    type := op.operation_type
    date := op.date
    quantity := op.quantity
    price := quotation_to_float op.price
    payment := quotation_to_float op.payment
    virtual := false }

/-- The synthetic opening operation seeded for a nonzero starting position:
one microsecond before the first real operation, Buy for a long start, Sell
for a short start, unknown price/payment. -/
def virtualOp (figi : String) (firstDate : ℤ) (starting_position : ℤ) : OpDict :=
  { id := "virtual_start_" ++ figi
    type := if starting_position > 0 then OperationType.buy else OperationType.sell
    date := firstDate - 1
    quantity := |starting_position|
    price := 0
    payment := 0
    virtual := true }

/-- `ProfitCalculator._crosses_zero`. -/
def crosses_zero (old_position new_position : ℤ) : Bool :=
  (decide (old_position > 0) && decide (new_position ≤ 0)) ||
    (decide (old_position < 0) && decide (new_position ≥ 0))

/-- The reconstructed trade record (`Trade` dataclass fields set by the
continuous path; `session_data` is always absent there). -/
structure Trade where
  trade_id : String
  figi : String
  instrument_name : String
  entry_time : ℤ
  exit_time : ℤ
  entry_price : ℚ
  exit_price : ℚ
  quantity : ℤ
  direction : String
  gross_profit : ℚ
  fees : ℚ
  net_profit : ℚ
  entry_operation_id : String
  exit_operation_id : String
  variation_margin : ℚ
deriving DecidableEq

/-- `ProfitCalculator.correct_timezone`: shift a timestamp by the configured
offset in hours (timestamps are microseconds). -/
def correct_timezone (timezone_offset : ℤ) (date : ℤ) : ℤ :=
  date + timezone_offset * 3600000000

/-- Total quantity of the Buy dicts in a list. -/
def totalBuyQty (ops : List OpDict) : ℤ :=
  ((ops.filter (fun o => o.type == OperationType.buy)).map (fun o => o.quantity)).sum

/-- Total quantity of the Sell dicts in a list. -/
def totalSellQty (ops : List OpDict) : ℤ :=
  ((ops.filter (fun o => o.type == OperationType.sell)).map (fun o => o.quantity)).sum

/-- The real (non-synthetic) operations of a buffer. -/
def realOps (operations : List OpDict) : List OpDict :=
  operations.filter (fun o => !o.virtual)

/-- The body of `_create_trade_from_operations` after the initial direction
has been determined (factored out so that the direction computation and the
trade construction can be reasoned about separately). -/
def createTradeCore (timezone_offset : ℤ) (figi : String)
    (operations : List OpDict) (direction0 : String)
    (start_position end_position : ℤ) : Option Trade :=
  match realOps operations with
    | [] => none
    | first_op :: rest =>
      let real_operations := first_op :: rest
      let last_op := real_operations.getLastD first_op
      let quantity0 : ℤ :=
        if start_position ≠ 0 then |start_position| else |end_position|
      let quantity : ℤ :=
        if quantity0 = 0 then min (totalBuyQty real_operations) (totalSellQty real_operations)
        else quantity0
      if quantity = 0 then none
      else
        let buy_operations := real_operations.filter (fun o => o.type == OperationType.buy)
        let sell_operations := real_operations.filter (fun o => o.type == OperationType.sell)
        let mkTrade : String → ℚ → ℚ → ℚ → Option Trade := fun direction entry_price exit_price gross_profit =>
          some { trade_id := figi ++ "_" ++ first_op.id ++ "_" ++ last_op.id
                 figi := figi
                 instrument_name := figi
                 entry_time := correct_timezone timezone_offset first_op.date
                 exit_time := correct_timezone timezone_offset last_op.date
                 entry_price := entry_price
                 exit_price := exit_price
                 quantity := quantity
                 direction := direction
                 gross_profit := gross_profit
                 fees := 0
                 net_profit := gross_profit
                 entry_operation_id := first_op.id
                 exit_operation_id := last_op.id
                 variation_margin := 0 }
        match buy_operations, sell_operations with
        | bfirst :: brest, _sfirst :: _srest =>
          let buys := bfirst :: brest
          let sells := _sfirst :: _srest
          let total_buy_amount := (buys.map (fun o => |o.payment|)).sum
          let total_buy_quantity := (buys.map (fun o => o.quantity)).sum
          let avg_buy_price : ℚ :=
            if total_buy_quantity > 0 then total_buy_amount / (total_buy_quantity : ℚ) else 0
          let total_sell_amount := (sells.map (fun o => |o.payment|)).sum
          let total_sell_quantity := (sells.map (fun o => o.quantity)).sum
          let avg_sell_price : ℚ :=
            if total_sell_quantity > 0 then total_sell_amount / (total_sell_quantity : ℚ) else 0
          if direction0 == "LONG" then
            mkTrade direction0 avg_buy_price avg_sell_price
              ((avg_sell_price - avg_buy_price) * (quantity : ℚ))
          else
            mkTrade direction0 avg_sell_price avg_buy_price
              ((avg_sell_price - avg_buy_price) * (quantity : ℚ))
        | bfirst :: brest, [] =>
          let buys := bfirst :: brest
          let entry_price := bfirst.price
          let exit_price := (buys.getLastD bfirst).price
          mkTrade "LONG" entry_price exit_price
            ((exit_price - entry_price) * (quantity : ℚ))
        | [], sfirst :: srest =>
          let sells := sfirst :: srest
          let entry_price := sfirst.price
          let exit_price := (sells.getLastD sfirst).price
          mkTrade "SHORT" entry_price exit_price
            ((entry_price - exit_price) * (quantity : ℚ))
        | [], [] => none

/-- `ProfitCalculator._create_trade_from_operations`. -/
def create_trade_from_operations (timezone_offset : ℤ) (figi : String)
    (operations : List OpDict) (start_position end_position : ℤ) : Option Trade :=
  match operations with
  | [] => none
  | first0 :: _ =>
    let direction0 : String :=
      if start_position > 0 then "LONG"
      else if start_position < 0 then "SHORT"
      else if first0.type == OperationType.buy then "LONG" else "SHORT"
    createTradeCore timezone_offset figi operations direction0 start_position end_position

/-- Per-FIGI loop state of `_process_figi_continuous`: running signed position,
the buffer of the open excursion, and the trades emitted so far. -/
structure FigiState where
  current_position : ℤ
  current_trade_operations : List OpDict
  trades : List Trade
deriving DecidableEq

/-- The new running position after one trading operation: add the quantity for
a Buy, subtract it otherwise. -/
def newPositionOf (current_position : ℤ) (op : Operation) : ℤ :=
  if op.operation_type == OperationType.buy then current_position + op.quantity
  else current_position - op.quantity

/-- One iteration of the `_process_figi_continuous` loop: push the operation
into the buffer, update the position, and on a zero-crossing finalize a trade,
clear the buffer and re-seed it with the same operation if the new position is
nonzero. -/
def figiStep (timezone_offset : ℤ) (figi : String) (s : FigiState) (op : Operation) :
    FigiState :=
  let op_dict := opToDict op
  let buffered := s.current_trade_operations ++ [op_dict]
  let new_position := newPositionOf s.current_position op
  if crosses_zero s.current_position new_position then
    { current_position := new_position
      current_trade_operations := if new_position ≠ 0 then [op_dict] else []
      trades := s.trades ++
        (create_trade_from_operations timezone_offset figi buffered
          s.current_position new_position).toList }
  else
    { current_position := new_position
      current_trade_operations := buffered
      trades := s.trades }

/-- `ProfitCalculator._process_figi_continuous`. -/
def process_figi_continuous (timezone_offset : ℤ) (figi : String)
    (operations : List Operation) (starting_position : ℤ) : List Trade :=
  match operations with
  | [] => []
  | first :: _ =>
    let init : FigiState :=
      { current_position := starting_position
        current_trade_operations :=
          if starting_position ≠ 0 then [virtualOp figi first.date starting_position]
          else []
        trades := [] }
    (operations.foldl (figiStep timezone_offset figi) init).trades

/-- Python `all_trades.sort(key=lambda x: x.exit_time)` (stable, ascending). -/
def sortTradesByExit (trades : List Trade) : List Trade :=
  List.insertionSort (fun a b => a.exit_time ≤ b.exit_time) trades

/-- `ProfitCalculator._process_continuous_trading`: group trading operations by
FIGI (first-appearance order), run the per-FIGI state machine with that FIGI's
starting position, and sort all trades by exit time. -/
def process_continuous_trading (timezone_offset : ℤ) (operations : List Operation)
    (starting_positions : List (String × ℤ)) : List Trade :=
  if operations = [] then []
  else
    let all_trades :=
      (figiOrder operations).foldl
        (fun acc figi =>
          acc ++ process_figi_continuous timezone_offset figi
            (operations.filter (fun o => o.figi == figi))
            (dictGetD starting_positions figi 0)) []
    sortTradesByExit all_trades

/-- An entry of `fees_buffer` / `margin_operations` (the fields the continuous
path reads; the original operation reference is dropped). -/
structure PoolEntry where
  amount : ℚ
  date : ℤ
  assigned : Bool
deriving DecidableEq

/-- The mutable calculator state relevant to the continuous path
(`self.fees_buffer` and `self.margin_operations`). -/
structure CalcState where
  fees_buffer : List PoolEntry
  margin_operations : List PoolEntry
deriving DecidableEq

/-- `ProfitCalculator.reset`, restricted to the state the continuous path reads. -/
def resetState : CalcState := { fees_buffer := [], margin_operations := [] }

/-- `ProfitCalculator._process_fee_operation`: buffer the absolute fee amount. -/
def process_fee_operation (s : CalcState) (op : Operation) : CalcState :=
  { s with fees_buffer :=
      s.fees_buffer ++ [{ amount := |quotation_to_float op.payment|, date := op.date, assigned := false }] }

/-- `ProfitCalculator._process_margin_operation`: buffer the signed margin amount. -/
def process_margin_operation (s : CalcState) (op : Operation) : CalcState :=
  { s with margin_operations :=
      s.margin_operations ++ [{ amount := quotation_to_float op.payment, date := op.date, assigned := false }] }

/-- The classification loop of `process_operations_continuous`: fees and margin
operations go to their pools, Buy/Sell operations are collected in order, and
all other kinds are dropped. -/
def classifyStep (acc : CalcState × List Operation) (op : Operation) :
    CalcState × List Operation :=
  if op.operation_type == OperationType.brokerFee then
    (process_fee_operation acc.1 op, acc.2)
  else if isMarginOp op then
    (process_margin_operation acc.1 op, acc.2)
  else if isTradingOp op then
    (acc.1, acc.2 ++ [op])
  else acc

/-- `ProfitCalculator._assign_fees_and_margin_to_trades`: distribute the fee
pool proportionally to absolute gross profit (flat if no trade has gross
profit), split the margin pool flat, and recompute each net profit. -/
def assign_fees_and_margin_to_trades (s : CalcState) (trades : List Trade) :
    List Trade :=
  if trades = [] then trades
  else
    let total_fees : ℚ := (s.fees_buffer.map (fun f => f.amount)).sum
    let total_margin : ℚ := (s.margin_operations.map (fun m => m.amount)).sum
    let trades1 :=
      if total_fees > 0 then
        let total_gross_profit : ℚ := (trades.map (fun t => |t.gross_profit|)).sum
        if total_gross_profit > 0 then
          trades.map (fun t =>
            { t with fees := total_fees * |t.gross_profit| / total_gross_profit })
        else
          trades.map (fun t => { t with fees := total_fees / (trades.length : ℚ) })
      else trades
    let trades2 :=
      if total_margin ≠ 0 then
        trades1.map (fun t => { t with variation_margin := total_margin / (trades.length : ℚ) })
      else trades1
    trades2.map (fun t =>
      { t with net_profit := t.gross_profit - t.fees + t.variation_margin })

/-- The result triple of `process_operations_continuous`. -/
structure ContinuousResult where
  trades : List Trade
  total_profit : ℚ
  processed_operations : List Operation
deriving DecidableEq

/-- `ProfitCalculator.process_operations_continuous`, with the instance state
made explicit: the method resets the state before processing (except on the
empty-input early return), sorts the input by date, classifies it, builds the
continuous trades and assigns the fee/margin pools.  Returns the Python result
triple together with the state left behind. -/
def process_operations_continuous (timezone_offset : ℤ) (s0 : CalcState)
    (operations : List Operation) (starting_positions : List (String × ℤ)) :
    ContinuousResult × CalcState :=
  if operations = [] then
    ({ trades := [], total_profit := 0, processed_operations := [] }, s0)
  else
    let sorted_operations := sortByDateAsc operations
    let classified := sorted_operations.foldl classifyStep (resetState, [])
    let trades0 := process_continuous_trading timezone_offset classified.2 starting_positions
    let trades := assign_fees_and_margin_to_trades classified.1 trades0
    let total_profit := (trades.map (fun t => t.net_profit)).sum
    ({ trades := trades, total_profit := total_profit,
       processed_operations := sorted_operations }, classified.1)

/-- `ProfitCalculator.validate_position_consistency`'s result dict; the two
position fields are `none` exactly when the corresponding keys are absent. -/
structure ValidationResult where
  valid : Bool
  issues : List String
  final_simulated_positions : Option (List (String × ℤ))
  expected_positions : Option (List (String × ℤ))
deriving DecidableEq

/-- One forward-replay step of `validate_position_consistency`: a Buy adds its
quantity to the simulated position, a Sell subtracts it. -/
def forwardStep (d : List (String × ℤ)) (op : Operation) : List (String × ℤ) :=
  if isTradingOp op then
    let cur := dictGetD d op.figi 0
    if op.operation_type == OperationType.buy then
      dictSet d op.figi (cur + op.quantity)
    else
      dictSet d op.figi (cur - op.quantity)
  else d

/-- The mismatch message appended for one instrument. -/
def issueString (figi : String) (expected got : ℤ) : String :=
  "FIGI " ++ figi ++ ": Expected " ++ toString expected ++ ", got " ++ toString got

/-- `ProfitCalculator.validate_position_consistency`. -/
def validate_position_consistency (operations : List Operation)
    (starting_positions : List (String × ℤ))
    (current_positions : Option (List (String × ℤ))) : ValidationResult :=
  if operations = [] then
    { valid := true, issues := [], final_simulated_positions := none,
      expected_positions := none }
  else
    let simulated_positions := (sortByDateAsc operations).foldl forwardStep starting_positions
    let cur := current_positions.getD []
    let issues := cur.filterMap (fun p =>
      let simulated_pos := dictGetD simulated_positions p.1 0
      if simulated_pos ≠ p.2 then some (issueString p.1 p.2 simulated_pos) else none)
    { valid := issues.length == 0, issues := issues,
      final_simulated_positions := some simulated_positions,
      expected_positions := some cur }

/-- The signed effect of one operation on the reverse-replayed position of
instrument `k` (Buy undone by subtracting, Sell by adding). -/
def revDelta (k : String) (op : Operation) : ℤ :=
  if op.figi = k then
    (if op.operation_type = OperationType.buy then -op.quantity
     else if op.operation_type = OperationType.sell then op.quantity else 0)
  else 0

/-- The signed effect of one operation on the forward-replayed position of
instrument `k` (Buy adds, Sell subtracts). -/
def fwdDelta (k : String) (op : Operation) : ℤ :=
  if op.figi = k then
    (if op.operation_type = OperationType.buy then op.quantity
     else if op.operation_type = OperationType.sell then -op.quantity else 0)
  else 0

/-- The `simulated_positions` dict computed inside
`validate_position_consistency`: forward replay of all trading operations in
date order from the starting positions. -/
def simulatedFinal (operations : List Operation) (starting_positions : List (String × ℤ)) :
    List (String × ℤ) :=
  (sortByDateAsc operations).foldl forwardStep starting_positions

/-- Concrete operation: a Sell of one lot used to exhibit a one-sided trade. -/
def sellOnlyOp : Operation :=
  { id := "s1", operation_type := OperationType.sell, date := 0, figi := "F",
    quantity := 1, price := 10, payment := 10 }

/-- The trade the calculator emits for `sellOnlyOp` from starting position 1:
its buffer holds only the synthetic opening Buy and one real Sell. -/
def sellOnlyTrade : Trade :=
  { trade_id := "F_s1_s1", figi := "F", instrument_name := "F",
    entry_time := 10800000000, exit_time := 10800000000,
    entry_price := 10, exit_price := 10, quantity := 1, direction := "SHORT",
    gross_profit := 0, fees := 0, net_profit := 0,
    entry_operation_id := "s1", exit_operation_id := "s1", variation_margin := 0 }

/-- Concrete operation: Buy 50 during a long excursion that starts at 100. -/
def buyOvershoot : Operation :=
  { id := "b", operation_type := OperationType.buy, date := 0, figi := "F",
    quantity := 50, price := 10, payment := -500 }

/-- Concrete operation: Sell 160 that crosses zero from the running position
150 (excursion starting position 100). -/
def sellOvershoot : Operation :=
  { id := "s", operation_type := OperationType.sell, date := 1, figi := "F",
    quantity := 160, price := 11, payment := 1760 }

/-- Scenario C operation: Buy 100 at t=0. -/
def buy100 : Operation :=
  { id := "b1", operation_type := OperationType.buy, date := 0, figi := "F",
    quantity := 100, price := 10, payment := -1000 }

/-- Scenario C operation: Sell 150 at t=1h. -/
def sell150 : Operation :=
  { id := "s1", operation_type := OperationType.sell, date := 3600000000, figi := "F",
    quantity := 150, price := 11, payment := 1650 }

/-- Scenario C operation: Buy 50 at t=2h closing the short overshoot. -/
def buy50 : Operation :=
  { id := "b2", operation_type := OperationType.buy, date := 7200000000, figi := "F",
    quantity := 50, price := 9, payment := -450 }

/-- The pool entry `_process_fee_operation` appends for a fee operation. -/
def feeEntry (op : Operation) : PoolEntry :=
  { amount := |quotation_to_float op.payment|, date := op.date, assigned := false }

/-- The pool entry `_process_margin_operation` appends for a margin operation. -/
def marginEntry (op : Operation) : PoolEntry :=
  { amount := quotation_to_float op.payment, date := op.date, assigned := false }

/-- The window-level fee pool: the sum of the absolute payments of all
broker-fee operations in the input. -/
def feePool (ops : List Operation) : ℚ :=
  ((ops.filter (fun o => o.operation_type == OperationType.brokerFee)).map
    (fun o => |quotation_to_float o.payment|)).sum

/-- The window-level margin pool: the signed sum of the payments of all
variation-margin operations in the input. -/
def marginPool (ops : List Operation) : ℚ :=
  ((ops.filter isMarginOp).map (fun o => quotation_to_float o.payment)).sum

/-- A one-element buffer holding a real Sell of two lots. -/
def sellTwoDict : OpDict :=
  { id := "w", type := OperationType.sell, date := 0, quantity := 2, price := 5,
    payment := 10, virtual := false }

/-- The trade produced from `sellTwoDict` with prior position 2. -/
def sellTwoTrade : Trade :=
  { trade_id := "F_w_w", figi := "F", instrument_name := "F",
    entry_time := 10800000000, exit_time := 10800000000,
    entry_price := 5, exit_price := 5, quantity := 2, direction := "SHORT",
    gross_profit := 0, fees := 0, net_profit := 0,
    entry_operation_id := "w", exit_operation_id := "w", variation_margin := 0 }

/-- The per-trade allocation `_assign_fees_and_margin_to_trades` performs, as a
pure function of the pool state and the full trade list: proportional (or flat)
fee share, flat margin share, and the recomputed net profit. -/
def uniAssign (s : CalcState) (trades : List Trade) (t : Trade) : Trade :=
  let total_fees : ℚ := (s.fees_buffer.map (fun f => f.amount)).sum
  let total_margin : ℚ := (s.margin_operations.map (fun m => m.amount)).sum
  let total_gross_profit : ℚ := (trades.map (fun u => |u.gross_profit|)).sum
  let fees : ℚ :=
    if 0 < total_gross_profit then total_fees * |t.gross_profit| / total_gross_profit
    else total_fees / (trades.length : ℚ)
  let margin : ℚ := total_margin / (trades.length : ℚ)
  { t with fees := fees, variation_margin := margin,
           net_profit := t.gross_profit - fees + margin }

/-- Scenario A operation: Buy 100 at 10 (payment −1000). -/
def buyW : Operation :=
  { id := "bw", operation_type := OperationType.buy, date := 0, figi := "G",
    quantity := 100, price := 10, payment := -1000 }

/-- Scenario A operation: Sell 100 at 12 (payment 1200). -/
def sellW : Operation :=
  { id := "sw", operation_type := OperationType.sell, date := 3600000000, figi := "G",
    quantity := 100, price := 12, payment := 1200 }

/-- Scenario A operation: a broker fee of 5. -/
def feeW : Operation :=
  { id := "fw", operation_type := OperationType.brokerFee, date := 3660000000,
    figi := "", quantity := 0, price := 0, payment := -5 }

/-- A variation-margin accrual of 7. -/
def marW : Operation :=
  { id := "mw", operation_type := OperationType.accruingVarmargin, date := 3660000000,
    figi := "", quantity := 0, price := 0, payment := 7 }

/-! ### Association-list dictionary lemmas -/

lemma find?_overwrite_ne (d : List (String × ℤ)) (k k' : String) (v : ℤ) (h : k' ≠ k) :
    (d.map (fun p => if p.1 == k then (k, v) else p)).find? (fun p => p.1 == k')
      = d.find? (fun p => p.1 == k') := by
  induction d with
  | nil => rfl
  | cons p t ih =>
    rw [List.map_cons]
    by_cases hp : p.1 = k
    · have hk : ¬ (((k, v) : String × ℤ).1 == k') = true := by
        simp only [beq_iff_eq]
        exact fun hh => h hh.symm
      have hp' : ¬ (p.1 == k') = true := by
        simp only [beq_iff_eq, hp]
        exact fun hh => h hh.symm
      rw [if_pos (by simpa [beq_iff_eq] using hp),
        @List.find?_cons_of_neg _ (fun q => q.1 == k') (k, v) _ hk,
        @List.find?_cons_of_neg _ (fun q => q.1 == k') p _ hp', ih]
    · rw [if_neg (by simpa [beq_iff_eq] using hp)]
      by_cases hp' : (p.1 == k') = true
      · rw [@List.find?_cons_of_pos _ (fun q => q.1 == k') p _ hp',
          @List.find?_cons_of_pos _ (fun q => q.1 == k') p _ hp']
      · rw [@List.find?_cons_of_neg _ (fun q => q.1 == k') p _ hp',
          @List.find?_cons_of_neg _ (fun q => q.1 == k') p _ hp', ih]

lemma find?_overwrite_self (d : List (String × ℤ)) (k : String) (v : ℤ)
    (h : d.any (fun p => p.1 == k) = true) :
    (d.map (fun p => if p.1 == k then (k, v) else p)).find? (fun p => p.1 == k)
      = some (k, v) := by
  induction d with
  | nil => simp at h
  | cons p t ih =>
    rw [List.map_cons]
    by_cases hp : p.1 = k
    · rw [if_pos (by simpa [beq_iff_eq] using hp),
        @List.find?_cons_of_pos _ (fun q => q.1 == k) (k, v) _ (by simp [beq_iff_eq])]
    · have hpk : ¬ (p.1 == k) = true := by simpa [beq_iff_eq] using hp
      have ht : t.any (fun p => p.1 == k) = true := by
        rcases List.any_eq_true.mp h with ⟨q, hq, hqk⟩
        rcases List.mem_cons.mp hq with rfl | hq'
        · exact absurd hqk hpk
        · exact List.any_eq_true.mpr ⟨q, hq', hqk⟩
      rw [if_neg (by simpa [beq_iff_eq] using hp),
        @List.find?_cons_of_neg _ (fun q => q.1 == k) p _ hpk, ih ht]

lemma dictGet_dictSet (d : List (String × ℤ)) (k k' : String) (v : ℤ) :
    dictGet (dictSet d k v) k' = if k' = k then some v else dictGet d k' := by
  by_cases hk : k' = k
  · subst hk
    rw [if_pos rfl]
    unfold dictSet dictGet
    by_cases h : d.any (fun p => p.1 == k') = true
    · rw [if_pos h, find?_overwrite_self d k' v h]
      rfl
    · rw [if_neg h, List.find?_append]
      have hnone : d.find? (fun p => p.1 == k') = none := by
        rw [List.find?_eq_none]
        intro p hp hbeq
        exact h (List.any_eq_true.mpr ⟨p, hp, hbeq⟩)
      simp [hnone, List.find?]
  · rw [if_neg hk]
    unfold dictSet dictGet
    by_cases h : d.any (fun p => p.1 == k) = true
    · rw [if_pos h, find?_overwrite_ne d k k' v hk]
    · rw [if_neg h, List.find?_append]
      have hlast : [(k, v)].find? (fun p => p.1 == k') = none := by
        have : ((k, v).1 == k') = false := by
          simp [beq_iff_eq]
          exact fun hh => hk hh.symm
        simp [List.find?, this]
      simp [hlast]

lemma dictGetD_dictSet (d : List (String × ℤ)) (k k' : String) (v : ℤ) :
    dictGetD (dictSet d k v) k' 0 = if k' = k then v else dictGetD d k' 0 := by
  unfold dictGetD
  rw [dictGet_dictSet]
  by_cases hk : k' = k <;> simp [hk]

/-! ### Generic fold-over-positions lemma -/

lemma dictGetD_foldl_step
    (step : List (String × ℤ) → Operation → List (String × ℤ))
    (delta : String → Operation → ℤ)
    (hstep : ∀ d op k, dictGetD (step d op) k 0 = dictGetD d k 0 + delta k op) :
    ∀ (l : List Operation) (d : List (String × ℤ)) (k : String),
      dictGetD (l.foldl step d) k 0 = dictGetD d k 0 + (l.map (delta k)).sum := by
  intro l
  induction l with
  | nil => intro d k; simp
  | cons op t ih =>
    intro d k
    have := ih (step d op) k
    simp only [List.foldl_cons, List.map_cons, List.sum_cons]
    rw [this, hstep d op k, add_assoc]

lemma reverseStep_lookup (d : List (String × ℤ)) (op : Operation) (k : String) :
    dictGetD (reverseStep d op) k 0 = dictGetD d k 0 + revDelta k op := by
  unfold reverseStep revDelta isTradingOp
  by_cases hf : op.figi = k
  · cases hop : op.operation_type <;>
      simp [hop, hf, dictGetD_dictSet, sub_eq_add_neg]
  · have hf' : ¬ k = op.figi := fun hh => hf hh.symm
    cases hop : op.operation_type <;>
      simp [hop, hf, hf', dictGetD_dictSet, sub_eq_add_neg]

lemma sum_revDelta (l : List Operation) (k : String) :
    (l.map (revDelta k)).sum =
      ((l.filter (fun o => o.operation_type == OperationType.sell && o.figi == k)).map
          (fun o => o.quantity)).sum
        - ((l.filter (fun o => o.operation_type == OperationType.buy && o.figi == k)).map
            (fun o => o.quantity)).sum := by
  induction l with
  | nil => simp
  | cons op t ih =>
    simp only [List.map_cons, List.sum_cons, List.filter_cons]
    cases hop : op.operation_type <;> by_cases hf : op.figi = k <;>
      simp [revDelta, hop, hf, ih] <;> ring

lemma forwardStep_lookup (d : List (String × ℤ)) (op : Operation) (k : String) :
    dictGetD (forwardStep d op) k 0 = dictGetD d k 0 + fwdDelta k op := by
  unfold forwardStep fwdDelta isTradingOp
  by_cases hf : op.figi = k
  · cases hop : op.operation_type <;>
      simp [hop, hf, dictGetD_dictSet, sub_eq_add_neg]
  · have hf' : ¬ k = op.figi := fun hh => hf hh.symm
    cases hop : op.operation_type <;>
      simp [hop, hf, hf', dictGetD_dictSet, sub_eq_add_neg]

lemma sum_fwdDelta (l : List Operation) (k : String) :
    (l.map (fwdDelta k)).sum =
      ((l.filter (fun o => o.operation_type == OperationType.buy && o.figi == k)).map
          (fun o => o.quantity)).sum
        - ((l.filter (fun o => o.operation_type == OperationType.sell && o.figi == k)).map
            (fun o => o.quantity)).sum := by
  induction l with
  | nil => simp
  | cons op t ih =>
    simp only [List.map_cons, List.sum_cons, List.filter_cons]
    cases hop : op.operation_type <;> by_cases hf : op.figi = k <;>
      simp [fwdDelta, hop, hf, ih] <;> ring

lemma sortByDateAsc_perm (ops : List Operation) : List.Perm (sortByDateAsc ops) ops :=
  List.perm_insertionSort _ ops

lemma sortByDateDesc_perm (ops : List Operation) : List.Perm (sortByDateDesc ops) ops :=
  List.perm_insertionSort _ ops

/-- C6: `calculate_starting_positions_from_current` returns, per instrument,
the current position minus the window's Buy quantities plus its Sell
quantities; non-trading operations are ignored; in particular a current
position of 20 with a single Sell of 20 yields a starting position of 40. -/
theorem starting_positions_from_current_reverses_window :
    (∀ (ops : List Operation) (cur : List (String × ℤ)) (figi : String),
      dictGetD (calculate_starting_positions_from_current ops cur) figi 0
        = dictGetD cur figi 0
          - ((ops.filter (fun o => o.operation_type == OperationType.buy && o.figi == figi)).map
              (fun o => o.quantity)).sum
          + ((ops.filter (fun o => o.operation_type == OperationType.sell && o.figi == figi)).map
              (fun o => o.quantity)).sum)
    ∧ dictGetD
        (calculate_starting_positions_from_current
          [{ id := "s", operation_type := OperationType.sell, date := 0, figi := "X",
             quantity := 20, price := 10, payment := 200 }] [("X", 20)]) "X" 0 = 40 := by
  constructor
  · intro ops cur figi
    unfold calculate_starting_positions_from_current
    by_cases h : ops = []
    · subst h; simp
    · rw [if_neg h,
        dictGetD_foldl_step reverseStep revDelta (fun d op k => reverseStep_lookup d op k)]
      have hperm :
          List.Perm ((sortByDateDesc ops).map (revDelta figi)) (ops.map (revDelta figi)) :=
        (sortByDateDesc_perm ops).map _
      rw [hperm.sum_eq, sum_revDelta]
      ring
  · decide

/-- C7: an empty operation list is not an error: the continuous reconstruction
returns zero trades and zero total profit, and auto-detection returns an empty
starting-position map. -/
theorem empty_input_returns_zero :
    (∀ (tz : ℤ) (s0 : CalcState) (sp : List (String × ℤ)),
      (process_operations_continuous tz s0 [] sp).1
        = { trades := [], total_profit := 0, processed_operations := [] })
    ∧ auto_detect_starting_positions [] = [] := by
  constructor
  · intro tz s0 sp
    simp [process_operations_continuous]
  · rfl

/-- C10: the continuous reconstruction is deterministic in its inputs: the
result does not depend on the calculator state left by earlier calls, because
the method resets all internal state before processing. -/
theorem process_operations_continuous_deterministic
    (tz : ℤ) (s1 s2 : CalcState) (ops : List Operation) (sp : List (String × ℤ)) :
    (process_operations_continuous tz s1 ops sp).1
      = (process_operations_continuous tz s2 ops sp).1 := by
  unfold process_operations_continuous
  by_cases h : ops = [] <;> simp [h]

/-! ### Auto-detection of starting positions -/

lemma mem_figiOrder_go (l : List Operation) :
    ∀ (acc : List String) (f : String),
      f ∈ l.foldl (fun acc op => if acc.contains op.figi then acc else acc ++ [op.figi]) acc
        ↔ f ∈ acc ∨ ∃ op ∈ l, op.figi = f := by
  induction l with
  | nil => intro acc f; simp
  | cons op t ih =>
    intro acc f
    rw [List.foldl_cons, ih]
    have hstep : f ∈ (if acc.contains op.figi then acc else acc ++ [op.figi])
        ↔ f ∈ acc ∨ f = op.figi := by
      by_cases hc : acc.contains op.figi = true
      · have hmem : op.figi ∈ acc := List.elem_iff.mp hc
        rw [if_pos hc]
        constructor
        · exact Or.inl
        · rintro (h | rfl)
          · exact h
          · exact hmem
      · rw [if_neg hc]
        simp [List.mem_append]
    rw [hstep, List.exists_mem_cons_iff]
    tauto

lemma nodup_figiOrder_go (l : List Operation) :
    ∀ acc : List String, acc.Nodup →
      (l.foldl (fun acc op => if acc.contains op.figi then acc else acc ++ [op.figi]) acc).Nodup := by
  induction l with
  | nil => intro acc h; simpa using h
  | cons op t ih =>
    intro acc h
    rw [List.foldl_cons]
    apply ih
    by_cases hc : acc.contains op.figi = true
    · rwa [if_pos hc]
    · rw [if_neg hc]
      have hnot : op.figi ∉ acc := fun hm => hc (List.elem_iff.mpr hm)
      rw [List.nodup_append]
      refine ⟨h, List.nodup_singleton _, ?_⟩
      intro a ha ha2
      rw [List.mem_singleton] at ha2
      subst ha2
      exact hnot ha

lemma mem_figiOrder (l : List Operation) (f : String) :
    f ∈ figiOrder l ↔ ∃ op ∈ l, op.figi = f := by
  rw [figiOrder, mem_figiOrder_go]
  simp

lemma nodup_figiOrder (l : List Operation) : (figiOrder l).Nodup :=
  nodup_figiOrder_go l [] List.nodup_nil

lemma foldl_append_eq_flatMap {α β : Type} (f : α → List β) (l : List α) :
    ∀ acc : List β, l.foldl (fun acc x => acc ++ f x) acc = acc ++ l.flatMap f := by
  induction l with
  | nil => intro acc; simp
  | cons x t ih => intro acc; simp [ih, List.flatMap_cons]

lemma auto_detect_eq_flatMap (operations : List Operation) :
    auto_detect_starting_positions operations
      = (figiOrder (operations.filter isTradingOp)).flatMap
          (detectEntry (operations.filter isTradingOp)) := by
  unfold auto_detect_starting_positions
  by_cases h : operations = []
  · subst h; simp [figiOrder]
  · rw [if_neg h, foldl_append_eq_flatMap]
    simp

lemma sortByDateAsc_eq_nil_iff (l : List Operation) : sortByDateAsc l = [] ↔ l = [] := by
  constructor
  · intro h
    have := sortByDateAsc_perm l
    rw [h] at this
    exact (this.symm).eq_nil
  · intro h; subst h; rfl

lemma detectEntry_keys (t : List Operation) (f : String) :
    (detectEntry t f).map Prod.fst
      = if t.filter (fun o => o.figi == f) = [] then [] else [f] := by
  unfold detectEntry
  rcases hs : sortByDateAsc (t.filter (fun o => o.figi == f)) with _ | ⟨first, rest⟩
  · rw [if_pos ((sortByDateAsc_eq_nil_iff _).mp hs)]
    simp
  · have hne : t.filter (fun o => o.figi == f) ≠ [] := by
      intro hnil
      rw [hnil] at hs
      exact List.cons_ne_nil _ _ hs.symm
    rw [if_neg hne]
    by_cases hb : (first.operation_type == OperationType.buy) = true <;> simp [hb]

lemma detectEntry_mem (t : List Operation) (f : String) (p : String × ℤ)
    (hp : p ∈ detectEntry t f) :
    p.1 = f ∧ ∃ first rest,
      sortByDateAsc (t.filter (fun o => o.figi == f)) = first :: rest
      ∧ p.2 = (if first.operation_type == OperationType.buy then -first.quantity
               else first.quantity) := by
  unfold detectEntry at hp
  rcases hs : sortByDateAsc (t.filter (fun o => o.figi == f)) with _ | ⟨first, rest⟩ <;>
    rw [hs] at hp
  · simp at hp
  · by_cases hb : (first.operation_type == OperationType.buy) = true
    · simp only [hb, if_true, List.mem_singleton] at hp
      subst hp
      exact ⟨rfl, first, rest, rfl, by simp [hb]⟩
    · simp only [hb, if_false, Bool.false_eq_true, List.mem_singleton] at hp
      subst hp
      exact ⟨rfl, first, rest, rfl, by simp [hb]⟩

lemma nodup_detect_keys (t : List Operation) :
    ∀ fl : List String, fl.Nodup →
      ((fl.flatMap (detectEntry t)).map Prod.fst).Nodup := by
  intro fl
  induction fl with
  | nil => intro _; simp
  | cons f rest ih =>
    intro h
    rcases List.nodup_cons.mp h with ⟨hf, hrest⟩
    rw [List.flatMap_cons, List.map_append, List.nodup_append]
    refine ⟨?_, ih hrest, ?_⟩
    · rw [detectEntry_keys]
      by_cases hg : t.filter (fun o => o.figi == f) = [] <;> simp [hg]
    · intro a ha ha'
      have h1 : a = f := by
        rw [detectEntry_keys] at ha
        by_cases hg : t.filter (fun o => o.figi == f) = [] <;> simp [hg] at ha
        exact ha
      rcases List.mem_flatMap.mp ((List.map_flatMap _ _ _).symm ▸ ha') with ⟨g, hg, hag⟩
      have h2 : a = g := by
        rw [detectEntry_keys] at hag
        by_cases hgg : t.filter (fun o => o.figi == g) = [] <;> simp [hgg] at hag
        exact hag
      exact hf (h1 ▸ h2 ▸ hg)

/-- C9: `auto_detect_starting_positions` has exactly one entry (no duplicate
keys) for each instrument with at least one Buy/Sell operation and no entry for
any other instrument, and the entry's value is minus the quantity of the
instrument's first chronological trading operation if that is a Buy, plus its
quantity if it is a Sell. -/
theorem auto_detect_first_operation_heuristic (ops : List Operation) :
    ((auto_detect_starting_positions ops).map Prod.fst).Nodup
    ∧ (∀ figi, figi ∈ (auto_detect_starting_positions ops).map Prod.fst
          ↔ ∃ op ∈ ops, isTradingOp op = true ∧ op.figi = figi)
    ∧ (∀ figi v, (figi, v) ∈ auto_detect_starting_positions ops →
        ∃ first rest,
          sortByDateAsc ((ops.filter isTradingOp).filter (fun o => o.figi == figi))
            = first :: rest
          ∧ v = (if first.operation_type == OperationType.buy then -first.quantity
                 else first.quantity)) := by
  rw [auto_detect_eq_flatMap]
  set t := ops.filter isTradingOp with ht
  refine ⟨nodup_detect_keys t _ (nodup_figiOrder t), ?_, ?_⟩
  · intro figi
    rw [List.map_flatMap, List.mem_flatMap]
    constructor
    · rintro ⟨f, hf, hfig⟩
      have h1 : figi = f := by
        rw [detectEntry_keys] at hfig
        by_cases hg : t.filter (fun o => o.figi == f) = [] <;> simp [hg] at hfig
        exact hfig
      subst h1
      rcases (mem_figiOrder t figi).mp hf with ⟨op, hop, hopf⟩
      rcases List.mem_filter.mp hop with ⟨hops, htrad⟩
      exact ⟨op, hops, htrad, hopf⟩
    · rintro ⟨op, hop, htrad, hopf⟩
      have hopt : op ∈ t := List.mem_filter.mpr ⟨hop, htrad⟩
      refine ⟨figi, (mem_figiOrder t figi).mpr ⟨op, hopt, hopf⟩, ?_⟩
      rw [detectEntry_keys]
      have hg : t.filter (fun o => o.figi == figi) ≠ [] := by
        intro hnil
        have : op ∈ t.filter (fun o => o.figi == figi) :=
          List.mem_filter.mpr ⟨hopt, by simp [hopf]⟩
        rw [hnil] at this
        simp at this
      simp [hg]
  · intro figi v hv
    rcases List.mem_flatMap.mp hv with ⟨f, _, hpf⟩
    rcases detectEntry_mem t f (figi, v) hpf with ⟨h1, first, rest, hsort, hval⟩
    simp only at h1
    subst h1
    exact ⟨first, rest, hsort, hval⟩

/-- Closed witness for the auto-detection theorem at a concrete input. -/
theorem auto_detect_first_operation_heuristic_witness :
    ∃ first rest,
      sortByDateAsc
          ((([{ id := "b", operation_type := OperationType.buy, date := 0, figi := "X",
                quantity := 3, price := 1, payment := -3 }] :
              List Operation).filter isTradingOp).filter (fun o => o.figi == "X"))
        = first :: rest
      ∧ (-3 : ℤ) = (if first.operation_type == OperationType.buy then -first.quantity
                    else first.quantity) :=
  (auto_detect_first_operation_heuristic
      [{ id := "b", operation_type := OperationType.buy, date := 0, figi := "X",
         quantity := 3, price := 1, payment := -3 }]).2.2 "X" (-3) (by decide)

/-! ### Position-consistency validation -/

/-- C8 counterexample: on an empty operation list the validation report carries
neither the simulated final positions nor the expected positions (the claim
says it always does), and the issue strings read `FIGI {id}: Expected {e}, got
{s}`, not `instrument {id}: expected {e}, got {s}`. -/
theorem validate_empty_report_lacks_positions :
    (validate_position_consistency [] [] (some [("X", 5)])).final_simulated_positions = none
    ∧ (validate_position_consistency [] [] (some [("X", 5)])).expected_positions = none
    ∧ (validate_position_consistency
        [{ id := "b", operation_type := OperationType.buy, date := 0, figi := "X",
           quantity := 3, price := 1, payment := -3 }]
        [] (some [("X", 5)])).issues = ["FIGI X: Expected 5, got 3"]
    ∧ "FIGI X: Expected 5, got 3" ≠ "instrument X: expected 5, got 3" := by
  refine ⟨rfl, rfl, ?_, by decide⟩
  rfl

/-- C8 amended: for a non-empty operation list, `validate_position_consistency`
replays every Buy/Sell forward from the starting positions, compares each
instrument in the supplied current positions, appends exactly one
`FIGI {id}: Expected {e}, got {s}` issue per mismatch, and returns
`valid` iff there are no issues, together with the simulated and expected
positions; on an empty operation list the report has only `valid = true` and
empty `issues`, with both position fields absent. -/
theorem validate_position_consistency_report (ops : List Operation)
    (sp : List (String × ℤ)) (cur : Option (List (String × ℤ))) :
    (validate_position_consistency [] sp cur
      = { valid := true, issues := [], final_simulated_positions := none,
          expected_positions := none })
    ∧ (ops ≠ [] →
        (validate_position_consistency ops sp cur).final_simulated_positions
            = some (simulatedFinal ops sp)
        ∧ (validate_position_consistency ops sp cur).expected_positions
            = some (cur.getD [])
        ∧ (validate_position_consistency ops sp cur).issues
            = (cur.getD []).filterMap (fun p =>
                if dictGetD (simulatedFinal ops sp) p.1 0 ≠ p.2 then
                  some (issueString p.1 p.2 (dictGetD (simulatedFinal ops sp) p.1 0))
                else none)
        ∧ ((validate_position_consistency ops sp cur).valid = true
            ↔ (validate_position_consistency ops sp cur).issues = [])
        ∧ (∀ figi, dictGetD (simulatedFinal ops sp) figi 0
            = dictGetD sp figi 0
              + ((ops.filter (fun o => o.operation_type == OperationType.buy && o.figi == figi)).map
                  (fun o => o.quantity)).sum
              - ((ops.filter (fun o => o.operation_type == OperationType.sell && o.figi == figi)).map
                  (fun o => o.quantity)).sum)) := by
  constructor
  · rfl
  · intro h
    simp only [validate_position_consistency, simulatedFinal, h, if_false, ite_false]
    refine ⟨trivial, trivial, trivial, ?_, ?_⟩
    · simp [List.length_eq_zero]
    · intro figi
      rw [dictGetD_foldl_step forwardStep fwdDelta (fun d op k => forwardStep_lookup d op k)]
      have hperm :
          List.Perm ((sortByDateAsc ops).map (fwdDelta figi)) (ops.map (fwdDelta figi)) :=
        (sortByDateAsc_perm ops).map _
      rw [hperm.sum_eq, sum_fwdDelta]
      ring

/-- Closed witness for the validation-report theorem at a concrete non-empty
input. -/
theorem validate_position_consistency_report_witness :
    (validate_position_consistency
        [{ id := "b", operation_type := OperationType.buy, date := 0, figi := "X",
           quantity := 3, price := 1, payment := -3 }]
        [] (some [("X", 5)])).final_simulated_positions
      = some (simulatedFinal
          [{ id := "b", operation_type := OperationType.buy, date := 0, figi := "X",
             quantity := 3, price := 1, payment := -3 }] []) :=
  ((validate_position_consistency_report
      [{ id := "b", operation_type := OperationType.buy, date := 0, figi := "X",
         quantity := 3, price := 1, payment := -3 }]
      [] (some [("X", 5)])).2 (by decide)).1

/-! ### Trade-finalization inversion -/

lemma createTradeCore_inversion (tz : ℤ) (figi : String) (operations : List OpDict)
    (direction0 : String) (start_position end_position : ℤ) (t : Trade)
    (h : createTradeCore tz figi operations direction0 start_position end_position = some t) :
    ∃ first_op rest, realOps operations = first_op :: rest
      ∧ t.fees = 0 ∧ t.variation_margin = 0
      ∧ t.quantity =
          (if (if start_position ≠ 0 then |start_position| else |end_position|) = 0 then
            min (totalBuyQty (first_op :: rest)) (totalSellQty (first_op :: rest))
          else (if start_position ≠ 0 then |start_position| else |end_position|))
      ∧ t.quantity ≠ 0
      ∧ ((first_op :: rest).filter (fun o => o.type == OperationType.buy) ≠ []
          ∨ (first_op :: rest).filter (fun o => o.type == OperationType.sell) ≠ []) := by
  unfold createTradeCore at h
  split at h
  · exact absurd h (by simp)
  · rename_i first_op rest heq
    refine ⟨first_op, rest, heq, ?_⟩
    simp only [] at h
    repeat' split at h
    all_goals try exact Option.noConfusion h
    all_goals (injection h with h
               subst h
               refine ⟨rfl, rfl, ?_, ?_, ?_⟩ <;> simp_all)

lemma create_trade_eq_core (tz : ℤ) (figi : String) (operations : List OpDict)
    (sp ep : ℤ) (hne : operations ≠ []) :
    ∃ d0, create_trade_from_operations tz figi operations sp ep
      = createTradeCore tz figi operations d0 sp ep := by
  cases operations with
  | nil => exact absurd rfl hne
  | cons a l => exact ⟨_, rfl⟩

lemma create_trade_inversion (tz : ℤ) (figi : String) (operations : List OpDict)
    (sp ep : ℤ) (t : Trade)
    (h : create_trade_from_operations tz figi operations sp ep = some t) :
    ∃ first_op rest, realOps operations = first_op :: rest
      ∧ t.fees = 0 ∧ t.variation_margin = 0
      ∧ t.quantity =
          (if (if sp ≠ 0 then |sp| else |ep|) = 0 then
            min (totalBuyQty (first_op :: rest)) (totalSellQty (first_op :: rest))
          else (if sp ≠ 0 then |sp| else |ep|))
      ∧ t.quantity ≠ 0
      ∧ ((first_op :: rest).filter (fun o => o.type == OperationType.buy) ≠ []
          ∨ (first_op :: rest).filter (fun o => o.type == OperationType.sell) ≠ []) := by
  have hne : operations ≠ [] := by
    intro hnil
    subst hnil
    exact Option.noConfusion h
  rcases create_trade_eq_core tz figi operations sp ep hne with ⟨d0, hcore⟩
  rw [hcore] at h
  exact createTradeCore_inversion tz figi operations d0 sp ep t h

lemma create_trade_real_side (tz : ℤ) (figi : String) (operations : List OpDict)
    (sp ep : ℤ) (t : Trade)
    (h : create_trade_from_operations tz figi operations sp ep = some t) :
    ∃ op ∈ operations, op.virtual = false
      ∧ (op.type = OperationType.buy ∨ op.type = OperationType.sell) := by
  rcases create_trade_inversion tz figi operations sp ep t h with
    ⟨first_op, rest, heq, _, _, _, _, hside⟩
  have hmem_real : ∀ o, o ∈ realOps operations → o ∈ operations ∧ o.virtual = false := by
    intro o ho
    rcases List.mem_filter.mp ho with ⟨h1, h2⟩
    exact ⟨h1, by simpa [Bool.not_eq_true'] using h2⟩
  rcases hside with hb | hs
  · rcases List.exists_mem_of_ne_nil _ hb with ⟨o, ho⟩
    rcases List.mem_filter.mp ho with ⟨ho1, ho2⟩
    have ho3 : o ∈ realOps operations := heq ▸ ho1
    rcases hmem_real o ho3 with ⟨hmem, hvirt⟩
    exact ⟨o, hmem, hvirt, Or.inl (by simpa [beq_iff_eq] using ho2)⟩
  · rcases List.exists_mem_of_ne_nil _ hs with ⟨o, ho⟩
    rcases List.mem_filter.mp ho with ⟨ho1, ho2⟩
    have ho3 : o ∈ realOps operations := heq ▸ ho1
    rcases hmem_real o ho3 with ⟨hmem, hvirt⟩
    exact ⟨o, hmem, hvirt, Or.inr (by simpa [beq_iff_eq] using ho2)⟩

lemma create_trade_quantity (tz : ℤ) (figi : String) (operations : List OpDict)
    (sp ep : ℤ) (t : Trade) (hsp : sp ≠ 0)
    (h : create_trade_from_operations tz figi operations sp ep = some t) :
    t.quantity = |sp| ∧ 0 < t.quantity := by
  rcases create_trade_inversion tz figi operations sp ep t h with
    ⟨first_op, rest, heq, _, _, hq, hq0, _⟩
  have habs : ¬ |sp| = 0 := by
    rw [abs_eq_zero]
    exact hsp
  rw [if_pos hsp] at hq
  rw [if_neg habs] at hq
  refine ⟨hq, ?_⟩
  rw [hq]
  exact abs_pos.mpr hsp

lemma create_trade_none_of_zero (tz : ℤ) (figi : String) (operations : List OpDict)
    (ep : ℤ) (hep : ep = 0)
    (hmin : min (totalBuyQty (realOps operations)) (totalSellQty (realOps operations)) = 0) :
    create_trade_from_operations tz figi operations 0 ep = none := by
  subst hep
  cases operations with
  | nil => rfl
  | cons a l =>
    show createTradeCore tz figi (a :: l) _ 0 0 = none
    unfold createTradeCore
    split
    · rfl
    · rename_i first_op rest heq
      rw [heq] at hmin
      simp [hmin]

/-! ### Tracing emitted trades back to their buffers -/

lemma mem_figi_fold_trades (tz : ℤ) (figi : String) :
    ∀ (l : List Operation) (init : FigiState) (t : Trade),
      t ∈ (l.foldl (figiStep tz figi) init).trades →
      t ∈ init.trades
        ∨ ∃ buf sp ep, create_trade_from_operations tz figi buf sp ep = some t := by
  intro l
  induction l with
  | nil => intro init t ht; exact Or.inl ht
  | cons op rest ih =>
    intro init t ht
    rw [List.foldl_cons] at ht
    rcases ih (figiStep tz figi init op) t ht with hmem | hex
    · simp only [figiStep] at hmem
      split at hmem
      · simp only [List.mem_append] at hmem
        rcases hmem with hmem | hmem
        · exact Or.inl hmem
        · rw [Option.mem_toList] at hmem
          exact Or.inr ⟨_, _, _, hmem⟩
      · exact Or.inl hmem
    · exact Or.inr hex

lemma mem_process_figi (tz : ℤ) (figi : String) (operations : List Operation)
    (starting_position : ℤ) (t : Trade)
    (ht : t ∈ process_figi_continuous tz figi operations starting_position) :
    ∃ buf sp ep, create_trade_from_operations tz figi buf sp ep = some t := by
  unfold process_figi_continuous at ht
  split at ht
  · simp at ht
  · rcases mem_figi_fold_trades tz figi _ _ t ht with hmem | hex
    · simp at hmem
    · exact hex

lemma mem_process_continuous_trading (tz : ℤ) (operations : List Operation)
    (sps : List (String × ℤ)) (t : Trade)
    (ht : t ∈ process_continuous_trading tz operations sps) :
    ∃ figi buf sp ep, create_trade_from_operations tz figi buf sp ep = some t := by
  unfold process_continuous_trading at ht
  split at ht
  · simp at ht
  · simp only [] at ht
    have hperm : List.Perm (sortTradesByExit
        ((figiOrder operations).foldl
          (fun acc figi =>
            acc ++ process_figi_continuous tz figi
              (operations.filter (fun o => o.figi == figi)) (dictGetD sps figi 0)) []))
        ((figiOrder operations).foldl
          (fun acc figi =>
            acc ++ process_figi_continuous tz figi
              (operations.filter (fun o => o.figi == figi)) (dictGetD sps figi 0)) []) :=
      List.perm_insertionSort _ _
    have ht2 := hperm.mem_iff.mp ht
    rw [foldl_append_eq_flatMap] at ht2
    simp only [List.nil_append, List.mem_flatMap] at ht2
    rcases ht2 with ⟨figi, _, htf⟩
    rcases mem_process_figi tz figi _ _ t htf with ⟨buf, sp, ep, hc⟩
    exact ⟨figi, buf, sp, ep, hc⟩

/-! ### C1: trades and the sides of their buffers -/

/-- C1 counterexample: starting from position 1, a single real Sell closes the
excursion and a Trade is emitted although the buffer's real operations contain
no Buy at all (the one-sided fallback), both at the finalization function and
through the full continuous pipeline. -/
theorem trade_emitted_from_one_sided_buffer :
    ((realOps [virtualOp "F" 0 1, opToDict sellOnlyOp]).all
        (fun o => !(o.type == OperationType.buy))) = true
    ∧ process_figi_continuous 3 "F" [sellOnlyOp] 1
        = (create_trade_from_operations 3 "F" [virtualOp "F" 0 1, opToDict sellOnlyOp]
            1 0).toList
    ∧ create_trade_from_operations 3 "F" [virtualOp "F" 0 1, opToDict sellOnlyOp] 1 0
        = some sellOnlyTrade
    ∧ ((process_operations_continuous 3 resetState [sellOnlyOp] [("F", 1)]).1).trades
        = [sellOnlyTrade] := by
  refine ⟨by decide, ?_, ?_, ?_⟩
  · simp +decide [process_figi_continuous, figiStep, opToDict, virtualOp, crosses_zero,
      newPositionOf, create_trade_from_operations, createTradeCore, realOps,
      totalBuyQty, totalSellQty, correct_timezone, sellOnlyOp, quotation_to_float]
  · simp +decide [create_trade_from_operations, createTradeCore, realOps, opToDict,
      virtualOp, totalBuyQty, totalSellQty, correct_timezone, sellOnlyOp, sellOnlyTrade,
      quotation_to_float]
  · simp +decide [process_operations_continuous, sortByDateAsc, List.insertionSort,
      classifyStep, isMarginOp, isTradingOp, resetState, process_continuous_trading,
      figiOrder, dictGetD, dictGet, process_figi_continuous, figiStep, opToDict,
      virtualOp, crosses_zero, newPositionOf, create_trade_from_operations,
      createTradeCore, realOps, totalBuyQty, totalSellQty, correct_timezone,
      sortTradesByExit, assign_fees_and_margin_to_trades, sellOnlyOp, sellOnlyTrade,
      quotation_to_float]

/-- C1 amended: every trade emitted by the continuous per-instrument processing
comes from a buffer that contains at least one real (non-synthetic) Buy or
Sell operation; both sides need not be present (a one-sided buffer still
produces a Trade via the single-side fallback). -/
theorem emitted_trade_has_real_operation (tz : ℤ) (figi : String)
    (operations : List Operation) (starting_position : ℤ) (t : Trade)
    (ht : t ∈ process_figi_continuous tz figi operations starting_position) :
    ∃ buf sp ep, create_trade_from_operations tz figi buf sp ep = some t
      ∧ ∃ op ∈ buf, op.virtual = false
          ∧ (op.type = OperationType.buy ∨ op.type = OperationType.sell) := by
  rcases mem_process_figi tz figi operations starting_position t ht with ⟨buf, sp, ep, hc⟩
  exact ⟨buf, sp, ep, hc, create_trade_real_side tz figi buf sp ep t hc⟩

/-- Closed witness: the one-sided Sell trade arises from a concrete buffer with
a real operation. -/
theorem emitted_trade_has_real_operation_witness :
    ∃ buf sp ep, create_trade_from_operations 3 "F" buf sp ep = some sellOnlyTrade
      ∧ ∃ op ∈ buf, op.virtual = false
          ∧ (op.type = OperationType.buy ∨ op.type = OperationType.sell) :=
  emitted_trade_has_real_operation 3 "F" [sellOnlyOp] 1 sellOnlyTrade
    (by simp +decide [process_figi_continuous, figiStep, opToDict, virtualOp,
      crosses_zero, newPositionOf, create_trade_from_operations, createTradeCore,
      realOps, totalBuyQty, totalSellQty, correct_timezone, sellOnlyOp, sellOnlyTrade,
      quotation_to_float])

/-! ### C2: trade quantity -/

/-- C2 counterexample: with excursion starting position 100 and operations
[Buy 50, Sell 160], the emitted Trade has quantity 150 (the running position
just before the closing Sell), which is neither `|starting position| = 100`
nor `min(total buys, total sells) = 50`. -/
theorem trade_quantity_not_excursion_start :
    ((process_operations_continuous 3 resetState [buyOvershoot, sellOvershoot]
        [("F", 100)]).1).trades.map (fun t => t.quantity) = [150]
    ∧ (150 : ℤ) ≠ |(100 : ℤ)|
    ∧ (150 : ℤ) ≠ min (50 : ℤ) 160 := by
  refine ⟨?_, by decide, by decide⟩
  simp +decide [process_operations_continuous, sortByDateAsc, List.insertionSort,
    List.orderedInsert, classifyStep, isMarginOp, isTradingOp, resetState,
    process_continuous_trading, figiOrder, dictGetD, dictGet, process_figi_continuous,
    figiStep, opToDict, virtualOp, crosses_zero, newPositionOf,
    create_trade_from_operations, createTradeCore, realOps, totalBuyQty, totalSellQty,
    correct_timezone, sortTradesByExit, assign_fees_and_margin_to_trades,
    buyOvershoot, sellOvershoot, quotation_to_float]

/-- C2 amended: a trade finalized with a nonzero `start_position` argument (the
running position immediately before the closing operation — always nonzero at
a zero-crossing) has quantity `|start_position|`, which is strictly positive;
and a buffer that resolves to quantity 0 (start and end position 0 and
`min(total buys, total sells) = 0`) yields no Trade. -/
theorem trade_quantity_is_prior_position :
    (∀ (tz : ℤ) (figi : String) (buf : List OpDict) (sp ep : ℤ) (t : Trade),
        sp ≠ 0 →
        create_trade_from_operations tz figi buf sp ep = some t →
        t.quantity = |sp| ∧ 0 < t.quantity)
    ∧ (∀ (tz : ℤ) (figi : String) (buf : List OpDict),
        min (totalBuyQty (realOps buf)) (totalSellQty (realOps buf)) = 0 →
        create_trade_from_operations tz figi buf 0 0 = none) := by
  constructor
  · intro tz figi buf sp ep t hsp h
    exact create_trade_quantity tz figi buf sp ep t hsp h
  · intro tz figi buf hmin
    exact create_trade_none_of_zero tz figi buf 0 rfl hmin

/-- Closed witness: a Sell of two lots closing a prior position of 2 yields a
trade of quantity 2 > 0. -/
theorem trade_quantity_is_prior_position_witness :
    sellTwoTrade.quantity = |(2 : ℤ)| ∧ 0 < sellTwoTrade.quantity :=
  trade_quantity_is_prior_position.1 3 "F" [sellTwoDict] 2 0 sellTwoTrade
    (by decide)
    (by simp +decide [create_trade_from_operations, createTradeCore, realOps,
      totalBuyQty, totalSellQty, correct_timezone, sellTwoDict, sellTwoTrade,
      quotation_to_float])

/-! ### C3: zero-crossing transition rule -/

/-- C3: an operation that makes the running position cross or land on zero
finalizes one Trade from the buffered operations (including itself), clears
the buffer, and re-seeds it with the same operation when the new position is
nonzero; in scenario C ([Buy 100, Sell 150, Buy 50] from 0) the first Trade
closes the 100-lot long and the Sell also opens the new short excursion that
the later Buy 50 closes. -/
theorem zero_crossing_finalizes_and_reseeds :
    (∀ (tz : ℤ) (figi : String) (s : FigiState) (op : Operation),
        crosses_zero s.current_position (newPositionOf s.current_position op) = true →
        figiStep tz figi s op =
          { current_position := newPositionOf s.current_position op,
            current_trade_operations :=
              if newPositionOf s.current_position op ≠ 0 then [opToDict op] else [],
            trades := s.trades ++
              (create_trade_from_operations tz figi
                (s.current_trade_operations ++ [opToDict op])
                s.current_position (newPositionOf s.current_position op)).toList })
    ∧ ((process_figi_continuous 3 "F" [buy100, sell150, buy50] 0).map
          (fun t => (t.quantity, t.direction)) = [(100, "LONG"), (50, "SHORT")])
    ∧ ([buy100, sell150].foldl (figiStep 3 "F")
          { current_position := 0, current_trade_operations := [], trades := [] }).current_trade_operations
        = [opToDict sell150]
    ∧ ([buy100, sell150].foldl (figiStep 3 "F")
          { current_position := 0, current_trade_operations := [], trades := [] }).current_position
        = -50 := by
  refine ⟨?_, ?_, ?_, ?_⟩
  · intro tz figi s op h
    simp only [figiStep, h, if_true]
  · simp +decide [process_figi_continuous, figiStep, opToDict, virtualOp, crosses_zero,
      newPositionOf, create_trade_from_operations, createTradeCore, realOps,
      totalBuyQty, totalSellQty, correct_timezone, buy100, sell150, buy50,
      quotation_to_float]
  · simp +decide [figiStep, opToDict, crosses_zero, newPositionOf,
      create_trade_from_operations, createTradeCore, realOps, totalBuyQty,
      totalSellQty, correct_timezone, buy100, sell150, quotation_to_float]
  · simp +decide [figiStep, opToDict, crosses_zero, newPositionOf,
      create_trade_from_operations, createTradeCore, realOps, totalBuyQty,
      totalSellQty, correct_timezone, buy100, sell150, quotation_to_float]

/-- Closed witness: the Sell 150 against running position 100 crosses zero,
emits the buffered trade and re-seeds the buffer with itself. -/
theorem zero_crossing_finalizes_and_reseeds_witness :
    figiStep 3 "F"
      { current_position := 100, current_trade_operations := [], trades := [] }
      sell150
      = { current_position := newPositionOf 100 sell150,
          current_trade_operations :=
            if newPositionOf 100 sell150 ≠ 0 then [opToDict sell150] else [],
          trades := [] ++
            (create_trade_from_operations 3 "F" ([] ++ [opToDict sell150]) 100
              (newPositionOf 100 sell150)).toList } :=
  zero_crossing_finalizes_and_reseeds.1 3 "F"
    { current_position := 100, current_trade_operations := [], trades := [] }
    sell150 (by decide)

/-! ### Pool classification and attribution -/

lemma classify_foldl :
    ∀ (l : List Operation) (s : CalcState) (acc : List Operation),
      l.foldl classifyStep (s, acc)
        = ({ fees_buffer := s.fees_buffer
               ++ (l.filter (fun o => o.operation_type == OperationType.brokerFee)).map feeEntry,
             margin_operations := s.margin_operations
               ++ (l.filter isMarginOp).map marginEntry },
           acc ++ l.filter isTradingOp) := by
  intro l
  induction l with
  | nil => intro s acc; simp
  | cons op t ih =>
    intro s acc
    rw [List.foldl_cons]
    cases hop : op.operation_type <;>
      simp [classifyStep, process_fee_operation, process_margin_operation, isMarginOp,
        isTradingOp, hop, ih, feeEntry, marginEntry, List.filter_cons]



lemma assign_spec (s : CalcState) (trades : List Trade) (hne : trades ≠ [])
    (hf : ∀ t ∈ trades, t.fees = 0) (hm : ∀ t ∈ trades, t.variation_margin = 0)
    (hpool : 0 ≤ (s.fees_buffer.map (fun f => f.amount)).sum) :
    assign_fees_and_margin_to_trades s trades = trades.map (uniAssign s trades) := by
  unfold assign_fees_and_margin_to_trades
  rw [if_neg hne]
  simp only []
  by_cases hF : (s.fees_buffer.map (fun f => f.amount)).sum > 0
  · rw [if_pos hF]
    by_cases hG : (trades.map (fun t => |t.gross_profit|)).sum > 0
    · rw [if_pos hG]
      by_cases hM : (s.margin_operations.map (fun m => m.amount)).sum ≠ 0
      · rw [if_pos hM]
        rw [List.map_map, List.map_map]
        apply List.map_congr_left
        intro t htm
        simp [Function.comp, hG, uniAssign]
      · rw [if_neg hM]
        push_neg at hM
        rw [List.map_map]
        apply List.map_congr_left
        intro t htm
        simp [Function.comp, hG, hM, hm t htm, uniAssign]
    · rw [if_neg hG]
      by_cases hM : (s.margin_operations.map (fun m => m.amount)).sum ≠ 0
      · rw [if_pos hM]
        rw [List.map_map, List.map_map]
        apply List.map_congr_left
        intro t htm
        simp [Function.comp, hG, uniAssign]
      · rw [if_neg hM]
        push_neg at hM
        rw [List.map_map]
        apply List.map_congr_left
        intro t htm
        simp [Function.comp, hG, hM, hm t htm, uniAssign]
  · rw [if_neg hF]
    have hF0 : (s.fees_buffer.map (fun f => f.amount)).sum = 0 := le_antisymm (not_lt.mp hF) hpool
    by_cases hM : (s.margin_operations.map (fun m => m.amount)).sum ≠ 0
    · rw [if_pos hM]
      rw [List.map_map]
      apply List.map_congr_left
      intro t htm
      by_cases hG : 0 < (trades.map (fun u => |u.gross_profit|)).sum <;>
        simp [Function.comp, hG, hF0, hf t htm, uniAssign]
    · rw [if_neg hM]
      push_neg at hM
      apply List.map_congr_left
      intro t htm
      by_cases hG : 0 < (trades.map (fun u => |u.gross_profit|)).sum <;>
        simp [hG, hF0, hM, hf t htm, hm t htm, uniAssign]



lemma sum_fees_proportional (F : ℚ) (trades : List Trade)
    (hG : (trades.map (fun u => |u.gross_profit|)).sum ≠ 0) :
    (trades.map (fun t =>
        F * |t.gross_profit| / (trades.map (fun u => |u.gross_profit|)).sum)).sum = F := by
  have hfun : (fun t : Trade =>
      F * |t.gross_profit| / (trades.map (fun u => |u.gross_profit|)).sum)
      = fun t : Trade =>
        (F / (trades.map (fun u => |u.gross_profit|)).sum) * |t.gross_profit| := by
    funext t
    rw [div_mul_eq_mul_div]
  rw [hfun, List.sum_map_mul_left, div_mul_cancel₀ F hG]

lemma sum_flat_share (F : ℚ) (trades : List Trade) (hne : trades ≠ []) :
    (trades.map (fun _ => F / (trades.length : ℚ))).sum = F := by
  have hlen : ((trades.length : ℚ)) ≠ 0 := by
    rw [Nat.cast_ne_zero]
    intro h0
    exact hne (List.length_eq_zero.mp h0)
  have hconst : (fun _ : Trade => F / (trades.length : ℚ))
      = Function.const Trade (F / (trades.length : ℚ)) := rfl
  rw [hconst, List.map_const, List.sum_replicate, nsmul_eq_mul, mul_div_cancel₀ F hlen]

lemma sum_abs_nonneg (l : List ℚ) : 0 ≤ (l.map (fun x => |x|)).sum := by
  apply List.sum_nonneg
  intro x hx
  rcases List.mem_map.mp hx with ⟨y, _, rfl⟩
  exact abs_nonneg y

lemma sum_abs_pos_iff (l : List ℚ) :
    0 < (l.map (fun x => |x|)).sum ↔ ∃ x ∈ l, x ≠ 0 := by
  induction l with
  | nil => simp
  | cons x t ih =>
    simp only [List.map_cons, List.sum_cons]
    constructor
    · intro hpos
      by_cases hx : x = 0
      · rw [hx] at hpos
        simp only [abs_zero, zero_add] at hpos
        rcases ih.mp hpos with ⟨y, hy, hy0⟩
        exact ⟨y, List.mem_cons_of_mem x hy, hy0⟩
      · exact ⟨x, List.mem_cons_self x t, hx⟩
    · rintro ⟨y, hy, hy0⟩
      rcases List.mem_cons.mp hy with rfl | hyt
      · have h1 : 0 < |y| := abs_pos.mpr hy0
        have h2 : 0 ≤ (t.map (fun x => |x|)).sum := sum_abs_nonneg t
        linarith
      · have h1 : 0 < (t.map (fun x => |x|)).sum := ih.mpr ⟨y, hyt, hy0⟩
        have h2 : 0 ≤ |x| := abs_nonneg x
        linarith

lemma process_operations_continuous_trades_eq (tz : ℤ) (s0 : CalcState)
    (ops : List Operation) (sp : List (String × ℤ)) (hne : ops ≠ []) :
    ((process_operations_continuous tz s0 ops sp).1).trades
      = assign_fees_and_margin_to_trades
          { fees_buffer := ((sortByDateAsc ops).filter
              (fun o => o.operation_type == OperationType.brokerFee)).map feeEntry,
            margin_operations := ((sortByDateAsc ops).filter isMarginOp).map marginEntry }
          (process_continuous_trading tz ((sortByDateAsc ops).filter isTradingOp) sp) := by
  unfold process_operations_continuous
  rw [if_neg hne]
  simp only []
  rw [classify_foldl]
  simp [resetState]

lemma fees_buffer_sum (ops : List Operation) :
    (((((sortByDateAsc ops).filter
        (fun o => o.operation_type == OperationType.brokerFee)).map feeEntry)).map
      (fun f => f.amount)).sum = feePool ops := by
  rw [List.map_map]
  have hcomp : ((fun f : PoolEntry => f.amount) ∘ feeEntry)
      = fun o : Operation => |quotation_to_float o.payment| := rfl
  rw [hcomp, feePool]
  have hperm := ((sortByDateAsc_perm ops).filter
    (fun o => o.operation_type == OperationType.brokerFee)).map
      (fun o : Operation => |quotation_to_float o.payment|)
  exact hperm.sum_eq

lemma margin_buffer_sum (ops : List Operation) :
    (((((sortByDateAsc ops).filter isMarginOp).map marginEntry)).map
      (fun m => m.amount)).sum = marginPool ops := by
  rw [List.map_map]
  have hcomp : ((fun m : PoolEntry => m.amount) ∘ marginEntry)
      = fun o : Operation => quotation_to_float o.payment := rfl
  rw [hcomp, marginPool]
  have hperm := ((sortByDateAsc_perm ops).filter isMarginOp).map
    (fun o : Operation => quotation_to_float o.payment)
  exact hperm.sum_eq

lemma trades0_fees_zero (tz : ℤ) (ops : List Operation) (sp : List (String × ℤ)) :
    ∀ t ∈ process_continuous_trading tz ops sp, t.fees = 0 ∧ t.variation_margin = 0 := by
  intro t ht
  rcases mem_process_continuous_trading tz ops sp t ht with ⟨figi, buf, p, e, hc⟩
  rcases create_trade_inversion tz figi buf p e t hc with ⟨_, _, _, hfees, hvm, _⟩
  exact ⟨hfees, hvm⟩




lemma uniAssign_gross (s : CalcState) (trades : List Trade) (t : Trade) :
    (uniAssign s trades t).gross_profit = t.gross_profit := rfl

lemma uniAssign_fees (s : CalcState) (trades : List Trade) (t : Trade) :
    (uniAssign s trades t).fees =
      if 0 < (trades.map (fun u => |u.gross_profit|)).sum then
        (s.fees_buffer.map (fun f => f.amount)).sum * |t.gross_profit|
          / (trades.map (fun u => |u.gross_profit|)).sum
      else (s.fees_buffer.map (fun f => f.amount)).sum / (trades.length : ℚ) := rfl

lemma uniAssign_margin (s : CalcState) (trades : List Trade) (t : Trade) :
    (uniAssign s trades t).variation_margin =
      (s.margin_operations.map (fun m => m.amount)).sum / (trades.length : ℚ) := rfl

lemma feePool_nonneg (ops : List Operation) : 0 ≤ feePool ops := by
  apply List.sum_nonneg
  intro x hx
  rcases List.mem_map.mp hx with ⟨o, _, rfl⟩
  exact abs_nonneg _

lemma marginPool_split (ops : List Operation) :
    marginPool ops
      = ((ops.filter (fun o => o.operation_type == OperationType.accruingVarmargin)).map
          (fun o => quotation_to_float o.payment)).sum
        + ((ops.filter (fun o => o.operation_type == OperationType.writingOffVarmargin)).map
            (fun o => quotation_to_float o.payment)).sum := by
  induction ops with
  | nil => simp [marginPool]
  | cons op t ih =>
    cases hop : op.operation_type <;>
      simp [marginPool, isMarginOp, hop, List.filter_cons] at ih ⊢ <;>
        rw [ih] <;> ring

lemma map_uniAssign_gross (s : CalcState) (T0 : List Trade) :
    ((T0.map (uniAssign s T0)).map (fun u => |u.gross_profit|)).sum
      = (T0.map (fun u => |u.gross_profit|)).sum := by
  rw [List.map_map]
  rfl



theorem fee_pool_distribution (tz : ℤ) (s0 : CalcState) (ops : List Operation)
    (sp : List (String × ℤ))
    (hne : ((process_operations_continuous tz s0 ops sp).1).trades ≠ []) :
    (∀ t ∈ ((process_operations_continuous tz s0 ops sp).1).trades,
        t.fees =
          if 0 < ((((process_operations_continuous tz s0 ops sp).1).trades.map
                (fun u => |u.gross_profit|)).sum) then
            feePool ops * |t.gross_profit|
              / ((((process_operations_continuous tz s0 ops sp).1).trades.map
                  (fun u => |u.gross_profit|)).sum)
          else feePool ops
            / ((((process_operations_continuous tz s0 ops sp).1).trades.length : ℚ)))
    ∧ ((((process_operations_continuous tz s0 ops sp).1).trades.map (fun t => t.fees)).sum
        = feePool ops)
    ∧ (0 < ((((process_operations_continuous tz s0 ops sp).1).trades.map
          (fun u => |u.gross_profit|)).sum)
        ↔ ∃ t ∈ ((process_operations_continuous tz s0 ops sp).1).trades,
            t.gross_profit ≠ 0) := by
  have hops : ops ≠ [] := by
    intro h0
    subst h0
    exact hne (by simp [process_operations_continuous])
  have htr := process_operations_continuous_trades_eq tz s0 ops sp hops
  rw [htr] at hne ⊢
  set S : CalcState :=
    { fees_buffer := ((sortByDateAsc ops).filter
        (fun o => o.operation_type == OperationType.brokerFee)).map feeEntry,
      margin_operations := ((sortByDateAsc ops).filter isMarginOp).map marginEntry }
    with hS
  set T0 := process_continuous_trading tz ((sortByDateAsc ops).filter isTradingOp) sp
    with hT0
  have hne0 : T0 ≠ [] := by
    intro h0
    rw [h0] at hne
    exact hne rfl
  have hf : ∀ t ∈ T0, t.fees = 0 := fun t ht => (trades0_fees_zero tz _ sp t ht).1
  have hm : ∀ t ∈ T0, t.variation_margin = 0 :=
    fun t ht => (trades0_fees_zero tz _ sp t ht).2
  have hFeq : (S.fees_buffer.map (fun f => f.amount)).sum = feePool ops :=
    fees_buffer_sum ops
  have hpool : 0 ≤ (S.fees_buffer.map (fun f => f.amount)).sum := by
    rw [hFeq]
    exact feePool_nonneg ops
  rw [assign_spec S T0 hne0 hf hm hpool]
  refine ⟨?_, ?_, ?_⟩
  · intro t ht
    rcases List.mem_map.mp ht with ⟨u, hu, rfl⟩
    rw [map_uniAssign_gross, List.length_map, uniAssign_fees, uniAssign_gross, hFeq]
  · rw [List.map_map]
    have hcomp : ((fun t : Trade => t.fees) ∘ uniAssign S T0)
        = fun t : Trade =>
            if 0 < (T0.map (fun u => |u.gross_profit|)).sum then
              (S.fees_buffer.map (fun f => f.amount)).sum * |t.gross_profit|
                / (T0.map (fun u => |u.gross_profit|)).sum
            else (S.fees_buffer.map (fun f => f.amount)).sum / (T0.length : ℚ) := rfl
    rw [hcomp]
    by_cases hG : 0 < (T0.map (fun u => |u.gross_profit|)).sum
    · simp only [if_pos hG]
      rw [sum_fees_proportional _ T0 (ne_of_gt hG), hFeq]
    · simp only [if_neg hG]
      rw [sum_flat_share _ T0 hne0, hFeq]
  · rw [map_uniAssign_gross]
    have habs : T0.map (fun u => |u.gross_profit|)
        = (T0.map (fun u => u.gross_profit)).map (fun x => |x|) := by
      rw [List.map_map]
      rfl
    rw [habs, sum_abs_pos_iff]
    constructor
    · rintro ⟨x, hx, hx0⟩
      rcases List.mem_map.mp hx with ⟨u, hu, rfl⟩
      refine ⟨uniAssign S T0 u, List.mem_map_of_mem _ hu, ?_⟩
      rw [uniAssign_gross]
      exact hx0
    · rintro ⟨t, ht, ht0⟩
      rcases List.mem_map.mp ht with ⟨u, hu, rfl⟩
      rw [uniAssign_gross] at ht0
      exact ⟨u.gross_profit, List.mem_map_of_mem _ hu, ht0⟩



theorem margin_pool_distribution (tz : ℤ) (s0 : CalcState) (ops : List Operation)
    (sp : List (String × ℤ))
    (hne : ((process_operations_continuous tz s0 ops sp).1).trades ≠ []) :
    (∀ t ∈ ((process_operations_continuous tz s0 ops sp).1).trades,
        t.variation_margin =
          marginPool ops
            / ((((process_operations_continuous tz s0 ops sp).1).trades.length : ℚ)))
    ∧ ((((process_operations_continuous tz s0 ops sp).1).trades.map
          (fun t => t.variation_margin)).sum = marginPool ops)
    ∧ marginPool ops
        = ((ops.filter (fun o => o.operation_type == OperationType.accruingVarmargin)).map
            (fun o => quotation_to_float o.payment)).sum
          + ((ops.filter (fun o => o.operation_type == OperationType.writingOffVarmargin)).map
              (fun o => quotation_to_float o.payment)).sum := by
  have hops : ops ≠ [] := by
    intro h0
    subst h0
    exact hne (by simp [process_operations_continuous])
  have htr := process_operations_continuous_trades_eq tz s0 ops sp hops
  rw [htr] at hne ⊢
  set S : CalcState :=
    { fees_buffer := ((sortByDateAsc ops).filter
        (fun o => o.operation_type == OperationType.brokerFee)).map feeEntry,
      margin_operations := ((sortByDateAsc ops).filter isMarginOp).map marginEntry }
    with hS
  set T0 := process_continuous_trading tz ((sortByDateAsc ops).filter isTradingOp) sp
    with hT0
  have hne0 : T0 ≠ [] := by
    intro h0
    rw [h0] at hne
    exact hne rfl
  have hf : ∀ t ∈ T0, t.fees = 0 := fun t ht => (trades0_fees_zero tz _ sp t ht).1
  have hm : ∀ t ∈ T0, t.variation_margin = 0 :=
    fun t ht => (trades0_fees_zero tz _ sp t ht).2
  have hFeq : (S.fees_buffer.map (fun f => f.amount)).sum = feePool ops :=
    fees_buffer_sum ops
  have hMeq : (S.margin_operations.map (fun m => m.amount)).sum = marginPool ops :=
    margin_buffer_sum ops
  have hpool : 0 ≤ (S.fees_buffer.map (fun f => f.amount)).sum := by
    rw [hFeq]
    exact feePool_nonneg ops
  rw [assign_spec S T0 hne0 hf hm hpool]
  refine ⟨?_, ?_, marginPool_split ops⟩
  · intro t ht
    rcases List.mem_map.mp ht with ⟨u, hu, rfl⟩
    rw [List.length_map, uniAssign_margin, hMeq]
  · rw [List.map_map]
    have hcomp : ((fun t : Trade => t.variation_margin) ∘ uniAssign S T0)
        = fun _ : Trade =>
            (S.margin_operations.map (fun m => m.amount)).sum / (T0.length : ℚ) := rfl
    rw [hcomp]
    rw [sum_flat_share _ T0 hne0, hMeq]

lemma scenarioA_fee_run_nonempty :
    ((process_operations_continuous 3 resetState [buyW, sellW, feeW] []).1).trades ≠ [] := by
  simp +decide [process_operations_continuous, sortByDateAsc, List.insertionSort,
    List.orderedInsert, classifyStep, isMarginOp, isTradingOp, resetState,
    process_fee_operation, process_continuous_trading, figiOrder, dictGetD, dictGet,
    process_figi_continuous, figiStep, opToDict, virtualOp, crosses_zero,
    newPositionOf, create_trade_from_operations, createTradeCore, realOps,
    totalBuyQty, totalSellQty, correct_timezone, sortTradesByExit,
    assign_fees_and_margin_to_trades, buyW, sellW, feeW, quotation_to_float]
  norm_num

/-- Closed witness: scenario A (Buy 100@10, Sell 100@12, Fee 5) has a non-empty
trade list and its fees sum to the fee pool. -/
theorem fee_pool_distribution_witness :
    ((((process_operations_continuous 3 resetState [buyW, sellW, feeW] []).1).trades.map
        (fun t => t.fees)).sum = feePool [buyW, sellW, feeW]) :=
  (fee_pool_distribution 3 resetState [buyW, sellW, feeW] []
    scenarioA_fee_run_nonempty).2.1

lemma scenarioA_margin_run_nonempty :
    ((process_operations_continuous 3 resetState [buyW, sellW, marW] []).1).trades ≠ [] := by
  simp +decide [process_operations_continuous, sortByDateAsc, List.insertionSort,
    List.orderedInsert, classifyStep, isMarginOp, isTradingOp, resetState,
    process_margin_operation, process_continuous_trading, figiOrder, dictGetD, dictGet,
    process_figi_continuous, figiStep, opToDict, virtualOp, crosses_zero,
    newPositionOf, create_trade_from_operations, createTradeCore, realOps,
    totalBuyQty, totalSellQty, correct_timezone, sortTradesByExit,
    assign_fees_and_margin_to_trades, buyW, sellW, marW, quotation_to_float]

/-- Closed witness: with a margin accrual of 7 and one trade, the margin sum
equals the margin pool. -/
theorem margin_pool_distribution_witness :
    ((((process_operations_continuous 3 resetState [buyW, sellW, marW] []).1).trades.map
        (fun t => t.variation_margin)).sum = marginPool [buyW, sellW, marW]) :=
  (margin_pool_distribution 3 resetState [buyW, sellW, marW] []
    scenarioA_margin_run_nonempty).2.1

end TinkTr
